import Mathlib

/-!
Verification of the blind-tasting red-wine notebook pipeline.

Strings are modelled as lists of characters (`Str`).  The pandas table is a
list of rows; each row carries the numeric identifier, the description,
the (possibly missing) province and variety, and the remaining columns as
a list of optional string fields.  Every pipeline stage of the notebook is
embedded as a function on such tables:

* `cleaner`        — `df.drop_duplicates(subset = df.columns.difference(['id']))`
                     followed by `df.dropna(subset=['province', 'variety'])`;
* `normalizeTable` — `df.replace('[\.\,\-]', ' ', regex = True)`;
* `leakageFilter`  — the two list comprehensions rewriting `df['description']`,
                     first excluding variety tokens, then province tokens;
* `labelBuilder`   — `df['prov_var'] = df['province'] + '_' + df['variety']`;
* `df_select`      — `df[df.prov_var.isin(lst)][['id', 'description', 'prov_var']]`;
* `descriptorReport` — `sorted(feature_map, key = lambda t: t[1], reverse = True)[:10]`;
* `predictLabels`  — `list(c[0] for c in class_map if c[1] in result)` where
                     `result = list(clf.predict(vectorizer.transform(test_input)))`.

The fitted vectorizer-plus-classifier composite is abstracted as a function
from texts to label codes, and the real-valued model weights as rationals.
-/

/-- Strings modelled as lists of characters. -/
abbrev Str := List Char

/-- Python `s.split(' ')`: split at every single space, keeping empty
segments; the result is always non-empty. -/
def pySplit (s : Str) : List Str := s.splitOn ' '

/-- Python `' '.join(ts)`. -/
def pyJoin (ts : List Str) : Str := List.intercalate [' '] ts

/-- One pass of the notebook's leakage filter on a single description `a`
against the token set of a label-source field `b`:
`' '.join(x for x in a.split(' ') if x not in set(b.split(' ')))`. -/
def removeTokens (a b : Str) : Str :=
  pyJoin ((pySplit a).filter fun x => decide (x ∉ pySplit b))

/-- The punctuation normalization `df.replace('[\.\,\-]', ' ', regex = True)`
acting on one string value: each comma, period or hyphen becomes a space. -/
def normalizeStr (s : Str) : Str :=
  s.map fun c => if c = ',' ∨ c = '.' ∨ c = '-' then ' ' else c

/-- A row of the wine-review table: identifier, description, optional
province and variety, and the remaining columns. -/
structure Row where
  id : Nat
  description : Str
  province : Option Str
  variety : Option Str
  other : List (Option Str)
deriving DecidableEq

/-- The comparison key of `drop_duplicates`: all columns except `id`. -/
def rowKey (r : Row) : Str × Option Str × Option Str × List (Option Str) :=
  (r.description, r.province, r.variety, r.other)

/-- Worker of `dropDuplicates`: traverse the table once, remembering the keys
already seen and keeping only the first row bearing each key. -/
def dropDuplicatesAux (seen : List (Str × Option Str × Option Str × List (Option Str))) :
    List Row → List Row
  | [] => []
  | r :: rs =>
    if rowKey r ∈ seen then dropDuplicatesAux seen rs
    else r :: dropDuplicatesAux (rowKey r :: seen) rs

/-- `df.drop_duplicates(subset = df.columns.difference(['id']))`: keep the
first row of every group of rows identical on all columns except `id`. -/
def dropDuplicates (rows : List Row) : List Row := dropDuplicatesAux [] rows

/-- `df.dropna(subset=['province', 'variety'])`. -/
def dropna (rows : List Row) : List Row :=
  rows.filter fun r => r.province.isSome && r.variety.isSome

/-- The Cleaner: duplicates first, then missing values, as in the notebook. -/
def cleaner (rows : List Row) : List Row := dropna (dropDuplicates rows)

/-- Punctuation normalization of one row: every string field of the row is
rewritten, the numeric identifier is untouched. -/
def normalizeRow (r : Row) : Row :=
  { r with
    description := normalizeStr r.description
    province := r.province.map normalizeStr
    variety := r.variety.map normalizeStr
    other := r.other.map (Option.map normalizeStr) }

/-- `df.replace('[\.\,\-]', ' ', regex = True)` on the whole table. -/
def normalizeTable (rows : List Row) : List Row := rows.map normalizeRow

/-- First leakage-filter comprehension: rewrite the description column,
excluding each row's own variety tokens. -/
def varietyPass (rows : List Row) : List Row :=
  rows.map fun r =>
    { r with description := removeTokens r.description (r.variety.getD []) }

/-- Second leakage-filter comprehension: rewrite the (already rewritten)
description column, excluding each row's own province tokens. -/
def provincePass (rows : List Row) : List Row :=
  rows.map fun r =>
    { r with description := removeTokens r.description (r.province.getD []) }

/-- The Leakage Filter: variety pass, then province pass. -/
def leakageFilter (rows : List Row) : List Row := provincePass (varietyPass rows)

/-- The composite label: `df['province'] + '_' + df['variety']`. -/
def makeProvVar (province variety : Str) : Str := province ++ ['_'] ++ variety

/-- A row extended with the composite-label column `prov_var`. -/
structure LRow where
  base : Row
  prov_var : Str
deriving DecidableEq

/-- The Label Builder: add the `prov_var` column to every row. -/
def labelBuilder (rows : List Row) : List LRow :=
  rows.map fun r => ⟨r, makeProvVar (r.province.getD []) (r.variety.getD [])⟩

/-- The curated red allow-list, exactly as written in the notebook. -/
def selected_red : List Str :=
  (["California_Pinot Noir",
    "California_Cabernet Sauvignon",
    "Oregon_Pinot Noir",
    "Washington_Cabernet Sauvignon",
    "Washington_Syrah",
    "Piedmont_Nebbiolo",
    "Piedmont_Barbera",
    "Tuscany_Sangiovese",
    "Veneto_Corvina, Rondinella, Molinara",
    "Bordeaux_Bordeaux-style Red Blend",
    "Burgundy_Pinot Noir",
    "Beaujolais_Gamay",
    "Rh??ne Valley_Rh??ne-style Red Blend",
    "Douro_Portuguese Red",
    "Northern Spain_Tempranillo",
    "Mendoza Province_Malbec",
    "South Australia_Shiraz"] : List String).map String.toList

/-- The projection produced by the Class Selector:
columns `id`, `description`, `prov_var` only. -/
structure SelRow where
  id : Nat
  description : Str
  prov_var : Str
deriving DecidableEq

/-- `df_select(lst)`: keep the rows whose `prov_var` is in the allow-list and
project to `['id', 'description', 'prov_var']`. -/
def df_select (lst : List Str) (rows : List LRow) : List SelRow :=
  (rows.filter fun r => decide (r.prov_var ∈ lst)).map fun r =>
    ⟨r.base.id, r.base.description, r.prov_var⟩

/-- `result = list(clf.predict(vectorizer.transform(test_input)))`, with the
fitted vectorizer-plus-classifier composite abstracted as `predict`. -/
def predictCodes (predict : Str → Nat) (texts : List Str) : List Nat :=
  texts.map predict

/-- The Predictor's output `list(c[0] for c in class_map if c[1] in result)`. -/
def predictLabels (class_map : List (Str × Nat)) (predict : Str → Nat)
    (texts : List Str) : List Str :=
  (class_map.filter fun c => decide (c.2 ∈ predictCodes predict texts)).map Prod.fst

/-- Following the spec's words, for comparison with `predictLabels`: the i-th
output is the composite label whose retained code equals the label code
predicted for the i-th input text. -/
def specPredictLabels (class_map : List (Str × Nat)) (predict : Str → Nat)
    (texts : List Str) : List Str :=
  texts.map fun t =>
    ((class_map.filter fun c => decide (c.2 = predict t)).map Prod.fst).headD []

/-- One class's descriptor report:
`sorted(list(zip(feature_names, weights)), key = lambda t: t[1], reverse = True)[:10]`,
a stable descending sort by weight followed by truncation to 10 entries. -/
def descriptorReport (feature_names : List Str) (weights : List ℚ) :
    List (Str × ℚ) :=
  ((feature_names.zip weights).mergeSort fun s t => decide (t.2 ≤ s.2)).take 10

/-- The Descriptor Reporter over the whole class map, `weightsOf` giving the
fitted model's weight row for a label code (`feature_log_prob_[code]` for the
generative model, `coef_[code]` for the discriminative one). -/
def descriptorReportAll (class_map : List (Str × Nat)) (feature_names : List Str)
    (weightsOf : Nat → List ℚ) : List (Str × List (Str × ℚ)) :=
  class_map.map fun cl => (cl.1, descriptorReport feature_names (weightsOf cl.2))

/-- The spec's conjectured single-pass variant of the leakage filter: one
split-filter-join pass removing the tokens of the union of both token sets. -/
def singlePassRemove (a b c : Str) : Str :=
  pyJoin ((pySplit a).filter fun x => decide (x ∉ pySplit b ++ pySplit c))

/-- Absence of the three normalized punctuation characters from a string. -/
def noPunct (s : Str) : Prop := ∀ c ∈ s, c ≠ ',' ∧ c ≠ '.' ∧ c ≠ '-'

instance (s : Str) : Decidable (noPunct s) := by
  unfold noPunct; infer_instance

/-! ### Helper lemmas about splitting and joining -/

lemma splitOnP_sep_false {α : Type} (p : α → Bool) :
    ∀ xs : List α, ∀ t ∈ xs.splitOnP p, ∀ a ∈ t, p a = false := by
  intro xs
  induction xs with
  | nil =>
    intro t ht a ha
    rw [List.splitOnP_nil] at ht
    rcases List.mem_singleton.mp ht with rfl
    exact absurd ha (List.not_mem_nil a)
  | cons x xs ih =>
    intro t ht a ha
    rw [List.splitOnP_cons] at ht
    by_cases hp : p x
    · rw [if_pos hp] at ht
      rcases List.mem_cons.mp ht with rfl | h
      · exact absurd ha (List.not_mem_nil a)
      · exact ih t h a ha
    · rw [if_neg hp] at ht
      cases hsp : xs.splitOnP p with
      | nil => exact absurd hsp (List.splitOnP_ne_nil p xs)
      | cons hd tl =>
        rw [hsp] at ht
        simp only [List.modifyHead] at ht
        rcases List.mem_cons.mp ht with rfl | h
        · rcases List.mem_cons.mp ha with rfl | ha'
          · exact Bool.eq_false_iff.mpr hp
          · exact ih hd (hsp ▸ List.mem_cons_self hd tl) a ha'
        · exact ih t (hsp ▸ List.mem_cons_of_mem hd h) a ha

lemma space_not_mem_pySplit (s : Str) : ∀ t ∈ pySplit s, ' ' ∉ t := by
  intro t ht hsp
  have := splitOnP_sep_false (fun c => c == ' ') s t ht ' ' hsp
  simp at this

lemma pySplit_ne_nil (s : Str) : pySplit s ≠ [] :=
  List.splitOnP_ne_nil _ s

lemma pySplit_pyJoin (ts : List Str) (hne : ts ≠ []) (hsp : ∀ t ∈ ts, ' ' ∉ t) :
    pySplit (pyJoin ts) = ts :=
  List.splitOn_intercalate ts ' ' hsp hne

lemma pyJoin_nil : pyJoin [] = [] := rfl

lemma pySplit_nil : pySplit [] = [[]] := by
  simp [pySplit, List.splitOn_nil]

lemma removeTokens_nil_left (c : Str) : removeTokens [] c = [] := by
  unfold removeTokens
  rw [pySplit_nil]
  by_cases h : ([] : Str) ∈ pySplit c
  · simp [h, pyJoin_nil]
  · simp [h, pyJoin, List.intercalate]

/-- Every non-empty token of `removeTokens a b` is a token of `a` and not a
token of `b`. -/
lemma mem_pySplit_removeTokens {t : Str} (ht : t ≠ []) (a b : Str)
    (h : t ∈ pySplit (removeTokens a b)) : t ∈ pySplit a ∧ t ∉ pySplit b := by
  unfold removeTokens at h
  set xs := (pySplit a).filter (fun x => decide (x ∉ pySplit b)) with hxs
  cases hx : xs with
  | nil =>
    rw [hx, pyJoin_nil, pySplit_nil] at h
    rcases List.mem_singleton.mp h with rfl
    exact absurd rfl ht
  | cons hd tl =>
    have hsub : ∀ u ∈ xs, ' ' ∉ u := fun u hu =>
      space_not_mem_pySplit a u (List.mem_of_mem_filter hu)
    rw [pySplit_pyJoin xs (by rw [hx]; exact List.cons_ne_nil hd tl) hsub] at h
    have := List.mem_filter.mp h
    exact ⟨this.1, by simpa using this.2⟩

/-- The two successive leakage-filter passes amount to one pass filtering
against the union of the two token sets. -/
lemma removeTokens_removeTokens (a b c : Str) :
    removeTokens (removeTokens a b) c = singlePassRemove a b c := by
  have hcongr : (pySplit a).filter (fun x => decide (x ∉ pySplit b ++ pySplit c))
      = ((pySplit a).filter fun x => decide (x ∉ pySplit b)).filter
          fun x => decide (x ∉ pySplit c) := by
    rw [List.filter_filter]
    apply List.filter_congr
    intro x _
    simp [List.mem_append, not_or, Bool.and_comm]
  cases hx : (pySplit a).filter (fun x => decide (x ∉ pySplit b)) with
  | nil =>
    have h1 : removeTokens a b = [] := by
      unfold removeTokens
      rw [hx, pyJoin_nil]
    rw [h1, removeTokens_nil_left]
    unfold singlePassRemove
    rw [hcongr, hx]
    rfl
  | cons hd tl =>
    have hsub : ∀ u ∈ (pySplit a).filter (fun x => decide (x ∉ pySplit b)),
        ' ' ∉ u := fun u hu =>
      space_not_mem_pySplit a u (List.mem_of_mem_filter hu)
    have h1 : removeTokens a b
        = pyJoin ((pySplit a).filter fun x => decide (x ∉ pySplit b)) := rfl
    rw [h1]
    unfold singlePassRemove removeTokens
    rw [pySplit_pyJoin _ (by rw [hx]; exact List.cons_ne_nil hd tl) hsub, hcongr]

/-! ### Helper lemmas about the table stages -/

lemma dropDuplicatesAux_subset :
    ∀ (rows : List Row) seen, ∀ x ∈ dropDuplicatesAux seen rows, x ∈ rows := by
  intro rows
  induction rows with
  | nil => intro seen x hx; exact absurd hx (List.not_mem_nil x)
  | cons r rs ih =>
    intro seen x hx
    rw [dropDuplicatesAux] at hx
    by_cases h : rowKey r ∈ seen
    · rw [if_pos h] at hx
      exact List.mem_cons_of_mem _ (ih seen x hx)
    · rw [if_neg h] at hx
      rcases List.mem_cons.mp hx with rfl | hx'
      · exact List.mem_cons_self _ _
      · exact List.mem_cons_of_mem _ (ih _ x hx')

lemma dropDuplicatesAux_not_mem_seen :
    ∀ (rows : List Row) seen, ∀ x ∈ dropDuplicatesAux seen rows, rowKey x ∉ seen := by
  intro rows
  induction rows with
  | nil => intro seen x hx; exact absurd hx (List.not_mem_nil x)
  | cons r rs ih =>
    intro seen x hx
    rw [dropDuplicatesAux] at hx
    by_cases h : rowKey r ∈ seen
    · rw [if_pos h] at hx
      exact ih seen x hx
    · rw [if_neg h] at hx
      rcases List.mem_cons.mp hx with rfl | hx'
      · exact h
      · have := ih _ x hx'
        exact fun hc => this (List.mem_cons_of_mem _ hc)

lemma dropDuplicatesAux_pairwise :
    ∀ (rows : List Row) seen,
      (dropDuplicatesAux seen rows).Pairwise fun a b => rowKey a ≠ rowKey b := by
  intro rows
  induction rows with
  | nil => intro seen; exact List.Pairwise.nil
  | cons r rs ih =>
    intro seen
    rw [dropDuplicatesAux]
    by_cases h : rowKey r ∈ seen
    · rw [if_pos h]; exact ih seen
    · rw [if_neg h]
      refine List.pairwise_cons.mpr ⟨?_, ih _⟩
      intro x hx heq
      exact dropDuplicatesAux_not_mem_seen rs _ x hx (heq ▸ List.mem_cons_self _ _)

lemma dropDuplicatesAux_exists_rep :
    ∀ (rows : List Row) seen, ∀ r ∈ rows, rowKey r ∉ seen →
      ∃ r' ∈ dropDuplicatesAux seen rows, rowKey r' = rowKey r := by
  intro rows
  induction rows with
  | nil => intro seen r hr; exact absurd hr (List.not_mem_nil r)
  | cons a rs ih =>
    intro seen r hr hseen
    rw [dropDuplicatesAux]
    rcases List.mem_cons.mp hr with rfl | hr'
    · rw [if_neg hseen]
      exact ⟨r, List.mem_cons_self _ _, rfl⟩
    · by_cases h : rowKey a ∈ seen
      · rw [if_pos h]
        exact ih seen r hr' hseen
      · rw [if_neg h]
        by_cases hk : rowKey r = rowKey a
        · exact ⟨a, List.mem_cons_self _ _, hk.symm⟩
        · obtain ⟨r', hr'', hkey⟩ := ih (rowKey a :: seen) r hr'
            (fun hc => (List.mem_cons.mp hc).elim hk hseen)
          exact ⟨r', List.mem_cons_of_mem _ hr'', hkey⟩

lemma dropDuplicates_subset (rows : List Row) : ∀ x ∈ dropDuplicates rows, x ∈ rows :=
  dropDuplicatesAux_subset rows []

lemma dropDuplicates_pairwise (rows : List Row) :
    (dropDuplicates rows).Pairwise fun a b => rowKey a ≠ rowKey b :=
  dropDuplicatesAux_pairwise rows []

lemma dropDuplicates_exists_rep (rows : List Row) :
    ∀ r ∈ rows, ∃ r' ∈ dropDuplicates rows, rowKey r' = rowKey r :=
  fun r hr => dropDuplicatesAux_exists_rep rows [] r hr (List.not_mem_nil _)

/-- The per-row action of the two leakage-filter passes taken together. -/
def rowFilter (r : Row) : Row :=
  { r with description := removeTokens (removeTokens r.description (r.variety.getD [])) (r.province.getD []) }

/-- The two-pass table-level leakage filter equals a single per-row map. -/
lemma leakageFilter_eq_map (rows : List Row) :
    leakageFilter rows = rows.map rowFilter := by
  unfold leakageFilter provincePass varietyPass rowFilter
  rw [List.map_map]
  rfl

lemma noPunct_normalizeStr (s : Str) : noPunct (normalizeStr s) := by
  intro c hc
  obtain ⟨c₀, _, rfl⟩ := List.mem_map.mp hc
  by_cases h : c₀ = ',' ∨ c₀ = '.' ∨ c₀ = '-'
  · rw [if_pos h]
    refine ⟨by decide, by decide, by decide⟩
  · rw [if_neg h]
    push_neg at h
    exact ⟨h.1, h.2.1, h.2.2⟩

lemma noPunct_getD_map (o : Option Str) :
    noPunct ((o.map normalizeStr).getD []) := by
  cases o with
  | none => intro c hc; exact absurd hc (List.not_mem_nil c)
  | some s => exact noPunct_normalizeStr s

lemma noPunct_append {s t : Str} (hs : noPunct s) (ht : noPunct t) :
    noPunct (s ++ t) := by
  intro c hc
  rcases List.mem_append.mp hc with h | h
  · exact hs c h
  · exact ht c h

lemma df_select_mem (lst : List Str) (rows : List LRow) :
    ∀ s ∈ df_select lst rows, s.prov_var ∈ lst
      ∧ ∃ r ∈ rows, s = ⟨r.base.id, r.base.description, r.prov_var⟩ := by
  intro s hs
  obtain ⟨r, hr, rfl⟩ := List.mem_map.mp hs
  have h := List.mem_filter.mp hr
  exact ⟨by simpa using h.2, r, h.1, rfl⟩

lemma df_select_retains (lst : List Str) (rows : List LRow) :
    ∀ r ∈ rows, r.prov_var ∈ lst →
      (⟨r.base.id, r.base.description, r.prov_var⟩ : SelRow) ∈ df_select lst rows := by
  intro r hr hl
  exact List.mem_map.mpr ⟨r, List.mem_filter.mpr ⟨hr, by simpa using hl⟩, rfl⟩

lemma descriptorReport_spec (fn : List Str) (w : List ℚ) :
    (descriptorReport fn w).length = min 10 (fn.zip w).length
      ∧ (descriptorReport fn w).Pairwise (fun s t => t.2 ≤ s.2)
      ∧ ∃ rest, ((descriptorReport fn w) ++ rest).Perm (fn.zip w)
          ∧ ∀ x ∈ descriptorReport fn w, ∀ y ∈ rest, y.2 ≤ x.2 := by
  have htrans : ∀ a b c : Str × ℚ, decide (b.2 ≤ a.2) = true →
      decide (c.2 ≤ b.2) = true → decide (c.2 ≤ a.2) = true := by
    intro a b c h1 h2
    simp only [decide_eq_true_eq] at h1 h2 ⊢
    exact h2.trans h1
  have htotal : ∀ a b : Str × ℚ, (decide (b.2 ≤ a.2) || decide (a.2 ≤ b.2)) = true := by
    intro a b
    simp only [Bool.or_eq_true, decide_eq_true_eq]
    exact le_total b.2 a.2
  have hsorted := List.sorted_mergeSort htrans htotal (fn.zip w)
  have hpair : ((fn.zip w).mergeSort fun s t => decide (t.2 ≤ s.2)).Pairwise
      fun s t : Str × ℚ => t.2 ≤ s.2 :=
    hsorted.imp fun h => of_decide_eq_true h
  have hperm := List.mergeSort_perm (fn.zip w) fun s t => decide (t.2 ≤ s.2)
  refine ⟨?_, ?_,
    ((fn.zip w).mergeSort fun s t => decide (t.2 ≤ s.2)).drop 10, ?_, ?_⟩
  · rw [descriptorReport, List.length_take, hperm.length_eq]
  · exact List.Pairwise.sublist (List.take_sublist 10 _) hpair
  · rw [descriptorReport, List.take_append_drop]
    exact hperm
  · intro x hx y hy
    have hpair2 : ((descriptorReport fn w) ++
        ((fn.zip w).mergeSort fun s t => decide (t.2 ≤ s.2)).drop 10).Pairwise
        fun s t : Str × ℚ => t.2 ≤ s.2 := by
      rw [descriptorReport, List.take_append_drop]
      exact hpair
    exact (List.pairwise_append.mp hpair2).2.2 x hx y hy

/-! ### Concrete rows used by the witness theorems -/

/-- A concrete retained class map for the predictor theorems. -/
def demoClassMap : List (Str × Nat) := [(("A".toList), 0), (("B".toList), 1)]

/-- A concrete fitted vectorizer-plus-classifier composite, as a function
from input text to label code. -/
def demoPredict : Str → Nat := fun s => if s = ("x".toList) then 1 else 0

/-- Concrete vocabulary entries for the descriptor-report witness. -/
def demoFeatures : List Str := [("cherry".toList), ("tart".toList)]

/-- Concrete per-class weights for the descriptor-report witness. -/
def demoWeights : List ℚ := [1, 2]

/-- A sample row with clean fields. -/
def demoRow : Row :=
  ⟨7, ("tart cherry Gamay wine".toList), some ("Beaujolais".toList),
    some ("Gamay".toList), [some ("France".toList)]⟩

/-- A row with punctuation in several fields. -/
def demoRowPunct : Row :=
  ⟨3, ("ripe, oaky.".toList), some ("Rh??ne-Valley".toList),
    some ("Syrah, Grenache".toList), [some ("France.".toList), none]⟩

/-- An exact duplicate of `demoRow` up to the identifier. -/
def demoRowDup : Row :=
  ⟨8, ("tart cherry Gamay wine".toList), some ("Beaujolais".toList),
    some ("Gamay".toList), [some ("France".toList)]⟩

/-- A row with a missing variety. -/
def demoRowNull : Row :=
  ⟨9, ("plummy".toList), some ("Oregon".toList), none, [none]⟩

/-- A labelled row whose composite label is on the red allow-list. -/
def demoLRowRed : LRow := ⟨demoRow, ("California_Pinot Noir".toList)⟩

/-- A labelled row whose composite label is off the red allow-list. -/
def demoLRowOther : LRow := ⟨demoRowNull, ("Mosel_Riesling".toList)⟩

/-- A labelled row for the generic selector witness. -/
def demoLRowX : LRow := ⟨demoRowNull, ("X".toList)⟩

/-! ### Claim theorems -/

/-- Claim C9: for every description string and every pair of variety and
province token sets, the two successive split-filter-join passes (variety
first, then province) yield exactly the same filtered description as a single
pass removing the tokens of the union of the two token sets, and swapping the
order of the two passes does not change the result. -/
theorem c9_two_pass_equals_union_pass (a b c : Str) :
    removeTokens (removeTokens a b) c = singlePassRemove a b c
      ∧ removeTokens (removeTokens a b) c = removeTokens (removeTokens a c) b := by
  refine ⟨removeTokens_removeTokens a b c, ?_⟩
  rw [removeTokens_removeTokens a b c, removeTokens_removeTokens a c b]
  unfold singlePassRemove
  congr 1
  apply List.filter_congr
  intro x _
  simp only [List.mem_append]
  exact decide_eq_decide.mpr (by rw [or_comm])

/-- Claim C7: the Leakage Filter is a per-row map (each row's description is
rewritten only from that row's own variety and province fields), performed in
two passes with the province-token removal applied after the variety-token
removal, on the text already modified by the variety pass. -/
theorem c7_per_row_two_pass (rows : List Row) :
    leakageFilter rows = rows.map rowFilter
      ∧ ∀ r : Row, (rowFilter r).description
          = removeTokens (removeTokens r.description (r.variety.getD []))
              (r.province.getD [])
      ∧ (rowFilter r).province = r.province ∧ (rowFilter r).variety = r.variety :=
  ⟨leakageFilter_eq_map rows, fun _ => ⟨rfl, rfl, rfl⟩⟩

/-- Claim C4: the composite label column produced by the Label Builder equals,
for every row, the concatenation of that row's province value, the delimiter
underscore, and that row's variety value; and recomputing the label from equal
province and variety inputs yields the same string. -/
theorem c4_label_is_concatenation (rows : List Row) :
    (∀ lr ∈ labelBuilder rows,
        lr.prov_var = lr.base.province.getD [] ++ ['_'] ++ lr.base.variety.getD [])
      ∧ ∀ p v p' v' : Str, p = p' → v = v' → makeProvVar p v = makeProvVar p' v' := by
  constructor
  · intro lr hlr
    obtain ⟨r, _, rfl⟩ := List.mem_map.mp hlr
    rfl
  · intro p v p' v' hp hv
    rw [hp, hv]

/-- Witness for C4 at a concrete row. -/
theorem c4_label_is_concatenation_witness :
    (⟨demoRow, ("Beaujolais_Gamay".toList)⟩ : LRow).prov_var
      = (⟨demoRow, ("Beaujolais_Gamay".toList)⟩ : LRow).base.province.getD []
          ++ ['_'] ++ (⟨demoRow, ("Beaujolais_Gamay".toList)⟩ : LRow).base.variety.getD [] :=
  (c4_label_is_concatenation [demoRow]).1
    ⟨demoRow, ("Beaujolais_Gamay".toList)⟩ (by decide)

/-- Claim C2: for every row of the table, after the Leakage Filter has run, no
whitespace-separated token (a non-empty space-free segment) of that row's
punctuation-normalized variety field and none of its punctuation-normalized
province field occurs as a token of that row's filtered description, by
case-sensitive exact comparison of character lists. -/
theorem c2_no_label_tokens_in_description (rows : List Row) (r : Row)
    (hr : r ∈ leakageFilter (normalizeTable (cleaner rows))) (t : Str) (ht : t ≠ [])
    (hmem : t ∈ pySplit (r.variety.getD []) ∨ t ∈ pySplit (r.province.getD [])) :
    t ∉ pySplit r.description := by
  rw [leakageFilter_eq_map] at hr
  obtain ⟨r₀, _, rfl⟩ := List.mem_map.mp hr
  intro hcontra
  have h1 := mem_pySplit_removeTokens ht
    (removeTokens r₀.description (r₀.variety.getD [])) (r₀.province.getD []) hcontra
  have h2 := mem_pySplit_removeTokens ht r₀.description (r₀.variety.getD []) h1.1
  rcases hmem with hv | hp
  · exact h2.2 hv
  · exact h1.2 hp

/-- Witness for C2: the variety token of a concrete row is absent from its
filtered description. -/
theorem c2_no_label_tokens_in_description_witness :
    ("Gamay".toList) ∉ pySplit (rowFilter (normalizeRow demoRow)).description :=
  c2_no_label_tokens_in_description [demoRow] (rowFilter (normalizeRow demoRow))
    (by decide) ("Gamay".toList) (by decide) (Or.inl (by decide))

/-- Claim C10: the punctuation-normalization step rewrites every string column
of the table, not only description, province and variety; afterwards no string
field of any row contains a comma, period or hyphen, and every composite label
built afterwards is free of those three characters. -/
theorem c10_normalization_all_columns (rows : List Row) :
    (∀ r ∈ normalizeTable rows,
        noPunct r.description
          ∧ (∀ s, r.province = some s → noPunct s)
          ∧ (∀ s, r.variety = some s → noPunct s)
          ∧ ∀ o ∈ r.other, ∀ s, o = some s → noPunct s)
      ∧ ∀ lr ∈ labelBuilder (leakageFilter (normalizeTable rows)), noPunct lr.prov_var := by
  constructor
  · intro r hr
    obtain ⟨r₀, _, rfl⟩ := List.mem_map.mp hr
    refine ⟨noPunct_normalizeStr _, ?_, ?_, ?_⟩
    · intro s hs
      cases h : r₀.province with
      | none => rw [normalizeRow, h] at hs; exact absurd hs (by simp)
      | some p =>
        rw [normalizeRow, h] at hs
        have : normalizeStr p = s := by simpa using hs
        exact this ▸ noPunct_normalizeStr p
    · intro s hs
      cases h : r₀.variety with
      | none => rw [normalizeRow, h] at hs; exact absurd hs (by simp)
      | some v =>
        rw [normalizeRow, h] at hs
        have : normalizeStr v = s := by simpa using hs
        exact this ▸ noPunct_normalizeStr v
    · intro o ho s hs
      have ho' : o ∈ r₀.other.map (Option.map normalizeStr) := ho
      obtain ⟨o₀, _, rfl⟩ := List.mem_map.mp ho'
      cases o₀ with
      | none => exact absurd hs (by simp)
      | some u =>
        have : normalizeStr u = s := by simpa using hs
        exact this ▸ noPunct_normalizeStr u
  · intro lr hlr
    rw [leakageFilter_eq_map] at hlr
    unfold labelBuilder normalizeTable at hlr
    rw [List.map_map, List.map_map] at hlr
    obtain ⟨r₀, _, rfl⟩ := List.mem_map.mp hlr
    exact noPunct_append
      (noPunct_append (noPunct_getD_map r₀.province) (by decide))
      (noPunct_getD_map r₀.variety)

/-- Witness for C10 at a row with punctuation in every string field. -/
theorem c10_normalization_all_columns_witness :
    noPunct (normalizeRow demoRowPunct).description :=
  ((c10_normalization_all_columns [demoRowPunct]).1
    (normalizeRow demoRowPunct) (by decide)).1

/-- Claim C5: every row surviving the Cleaner has non-null province and
variety; survivors are pairwise distinct on all columns except the identifier;
duplicate removal keeps exactly one representative of each duplicate group
(one exists for every input row, and representatives have pairwise distinct
keys); and non-nullness of province and variety is preserved by the
normalization, leakage-filter and label-building stages that follow. -/
theorem c5_cleaner_invariants (rows : List Row) :
    (∀ r ∈ cleaner rows, r.province.isSome ∧ r.variety.isSome)
      ∧ (cleaner rows).Pairwise (fun a b => rowKey a ≠ rowKey b)
      ∧ (∀ r ∈ rows, ∃ r' ∈ dropDuplicates rows, rowKey r' = rowKey r)
      ∧ (dropDuplicates rows).Pairwise (fun a b => rowKey a ≠ rowKey b)
      ∧ ∀ lr ∈ labelBuilder (leakageFilter (normalizeTable (cleaner rows))),
          lr.base.province.isSome ∧ lr.base.variety.isSome := by
  have hnonnull : ∀ r ∈ cleaner rows, r.province.isSome ∧ r.variety.isSome := by
    intro r hr
    have h := List.mem_filter.mp hr
    simpa using h.2
  refine ⟨hnonnull, ?_, dropDuplicates_exists_rep rows, dropDuplicates_pairwise rows, ?_⟩
  · exact (dropDuplicates_pairwise rows).filter _
  · intro lr hlr
    rw [leakageFilter_eq_map] at hlr
    unfold labelBuilder normalizeTable at hlr
    rw [List.map_map, List.map_map] at hlr
    obtain ⟨r₀, hr₀, rfl⟩ := List.mem_map.mp hlr
    obtain ⟨hp, hv⟩ := hnonnull r₀ hr₀
    obtain ⟨p, hps⟩ := Option.isSome_iff_exists.mp hp
    obtain ⟨v, hvs⟩ := Option.isSome_iff_exists.mp hv
    constructor
    · show (r₀.province.map normalizeStr).isSome
      rw [hps]; rfl
    · show (r₀.variety.map normalizeStr).isSome
      rw [hvs]; rfl

/-- Witness for C5 on a table with a duplicate and a null row. -/
theorem c5_cleaner_invariants_witness :
    demoRow.province.isSome ∧ demoRow.variety.isSome :=
  (c5_cleaner_invariants [demoRow, demoRowDup, demoRowNull]).1 demoRow (by decide)

/-- Counterexample for C3: the curated red allow-list of the notebook has 17
composite label strings, not 14. -/
theorem c3_counterexample : selected_red.length = 17 ∧ ¬ selected_red.length = 14 := by
  decide

/-- Claim C3 as amended: the curated red allow-list consists of 17 composite
label strings, and the Class Selector returns exactly the rows whose composite
label is among those 17 strings (projected to identifier, filtered text and
composite label) and zero rows whose label is any other string. -/
theorem c3_red_allow_list (rows : List LRow) :
    selected_red.length = 17
      ∧ (∀ s ∈ df_select selected_red rows, s.prov_var ∈ selected_red)
      ∧ (∀ r ∈ rows, r.prov_var ∈ selected_red →
          (⟨r.base.id, r.base.description, r.prov_var⟩ : SelRow)
            ∈ df_select selected_red rows)
      ∧ ∀ s ∈ df_select selected_red rows, ∃ r ∈ rows,
          s = ⟨r.base.id, r.base.description, r.prov_var⟩ := by
  refine ⟨by decide, ?_, df_select_retains _ _, ?_⟩
  · intro s hs
    exact (df_select_mem _ _ s hs).1
  · intro s hs
    exact (df_select_mem _ _ s hs).2

/-- Witness for C3 on a concrete two-row table. -/
theorem c3_red_allow_list_witness :
    (⟨demoRow.id, demoRow.description, ("California_Pinot Noir".toList)⟩ : SelRow)
      ∈ df_select selected_red [demoLRowRed, demoLRowOther] :=
  (c3_red_allow_list [demoLRowRed, demoLRowOther]).2.2.1 demoLRowRed
    (by decide) (by decide)

/-- Claim C6: the Class Selector's output label set is exactly the
intersection of its input's label set with the allow-list; every row with an
allow-listed label is retained, no other row is retained, and the output is
projected to exactly the identifier, filtered-text and composite-label
columns. -/
theorem c6_selector_intersection (lst : List Str) (rows : List LRow) :
    (∀ s ∈ df_select lst rows, s.prov_var ∈ lst)
      ∧ (∀ r ∈ rows, r.prov_var ∈ lst →
          (⟨r.base.id, r.base.description, r.prov_var⟩ : SelRow) ∈ df_select lst rows)
      ∧ (∀ s ∈ df_select lst rows, ∃ r ∈ rows,
          s = ⟨r.base.id, r.base.description, r.prov_var⟩)
      ∧ ∀ l : Str, (∃ s ∈ df_select lst rows, s.prov_var = l) ↔
          l ∈ lst ∧ ∃ r ∈ rows, r.prov_var = l := by
  refine ⟨fun s hs => (df_select_mem _ _ s hs).1, df_select_retains _ _,
    fun s hs => (df_select_mem _ _ s hs).2, ?_⟩
  intro l
  constructor
  · rintro ⟨s, hs, rfl⟩
    obtain ⟨hl, r, hr, rfl⟩ := df_select_mem _ _ s hs
    exact ⟨hl, r, hr, rfl⟩
  · rintro ⟨hl, r, hr, rfl⟩
    exact ⟨_, df_select_retains _ _ r hr hl, rfl⟩

/-- Witness for C6 with a one-label allow-list. -/
theorem c6_selector_intersection_witness :
    (⟨demoRowNull.id, demoRowNull.description, ("X".toList)⟩ : SelRow)
      ∈ df_select [("X".toList)] [demoLRowX] :=
  (c6_selector_intersection [("X".toList)] [demoLRowX]).2.1 demoLRowX
    (by decide) (by decide)

/-- Counterexample for C1: with the class map `[(A, 0), (B, 1)]` and inputs
predicted to codes `[1, 0]`, the Predictor's output is in class-map order
rather than input order; and with two inputs predicted to the same code, the
output has length 1, so repeats are not preserved. -/
theorem c1_counterexample :
    predictLabels demoClassMap demoPredict [("x".toList), ("y".toList)]
        ≠ specPredictLabels demoClassMap demoPredict [("x".toList), ("y".toList)]
      ∧ (predictLabels demoClassMap demoPredict [("x".toList), ("x".toList)]).length ≠ 2 := by
  decide

/-- Claim C1 as amended: the Predictor applies the fitted transform and
prediction to every input and returns the labels of exactly those class-map
entries whose code occurs among the predicted codes, in class-map order and
each at most once per class-map entry; the output is a sublist of the
class-map labels rather than a list aligned with the inputs. -/
theorem c1_predictor_labels (class_map : List (Str × Nat)) (predict : Str → Nat)
    (texts : List Str) :
    (predictLabels class_map predict texts).Sublist (class_map.map Prod.fst)
      ∧ ∀ l : Str, l ∈ predictLabels class_map predict texts ↔
          ∃ c ∈ class_map, c.1 = l ∧ ∃ t ∈ texts, predict t = c.2 := by
  constructor
  · exact (List.filter_sublist _).map Prod.fst
  · intro l
    simp only [predictLabels, predictCodes, List.mem_map, List.mem_filter,
      decide_eq_true_eq]
    constructor
    · rintro ⟨c, ⟨hc, hmem⟩, rfl⟩
      obtain ⟨t, ht, hpt⟩ := hmem
      exact ⟨c, hc, rfl, t, ht, hpt⟩
    · rintro ⟨c, hc, rfl, t, ht, hpt⟩
      exact ⟨c, ⟨hc, t, ht, hpt⟩, rfl⟩

/-- Witness for C1 at a concrete class map, predictor and input list. -/
theorem c1_predictor_labels_witness :
    (predictLabels demoClassMap demoPredict [("x".toList)]).Sublist
      (demoClassMap.map Prod.fst) :=
  (c1_predictor_labels demoClassMap demoPredict [("x".toList)]).1

/-- Claim C8: for each label code in the class map, the Descriptor Reporter
outputs the 10 vocabulary entries of highest model-derived weight for that
class (all reported entries weigh at least as much as every entry left out),
listed in descending weight order, and re-running it on the same fitted
weights and vocabulary yields the identical report. -/
theorem c8_descriptor_top_ten (class_map : List (Str × Nat)) (fn : List Str)
    (weightsOf : Nat → List ℚ) :
    descriptorReportAll class_map fn weightsOf
        = descriptorReportAll class_map fn weightsOf
      ∧ ∀ cl ∈ class_map,
          (descriptorReport fn (weightsOf cl.2)).length
              = min 10 (fn.zip (weightsOf cl.2)).length
            ∧ (descriptorReport fn (weightsOf cl.2)).Pairwise (fun s t => t.2 ≤ s.2)
            ∧ ∃ rest, ((descriptorReport fn (weightsOf cl.2)) ++ rest).Perm
                  (fn.zip (weightsOf cl.2))
                ∧ ∀ x ∈ descriptorReport fn (weightsOf cl.2), ∀ y ∈ rest, y.2 ≤ x.2 :=
  ⟨rfl, fun cl _ => descriptorReport_spec fn (weightsOf cl.2)⟩

/-- Witness for C8 at a concrete class map, vocabulary and weight table. -/
theorem c8_descriptor_top_ten_witness :
    (descriptorReport demoFeatures demoWeights).length
      = min 10 (demoFeatures.zip demoWeights).length :=
  ((c8_descriptor_top_ten demoClassMap demoFeatures fun _ => demoWeights).2
    (("A".toList), 0) (by decide)).1
